import Mathlib

namespace Avm

/-! Shallow embedding of the avm resolution engine and install store
(src/src/install.js, src/src/commands.js, and the agents/state helper
modules). JavaScript string values that may be null or undefined are
modelled as `Option String`; JS truthiness on them is `strTruthy`. -/

/-- JS string value that may also be null or undefined (`none`). -/
abbrev JStr := Option String

/-- JS truthiness of a string-or-absent value: null, undefined and `""` are falsy. -/
def strTruthy : JStr → Bool
  | none => false
  | some s => s ≠ ""

/-- JS `a || b` on string-or-absent values. -/
def jsOr (a b : JStr) : JStr := if strTruthy a then a else b

/-- JS `a || b` on plain strings (the empty string is falsy). -/
def jsOrS (a b : String) : String := if a ≠ "" then a else b

/-- JS `String.prototype.trim` (both ends), on the character-list model. -/
def jsTrim (s : String) : String :=
  ⟨((s.toList.dropWhile Char.isWhitespace).reverse.dropWhile Char.isWhitespace).reverse⟩

/-- JS `String.prototype.toLowerCase`, restricted to the ASCII range used here. -/
def jsToLower (s : String) : String := ⟨s.toList.map Char.toLower⟩

/-- Splitting a character list at every occurrence of `sep` (JS `split` with a
single-character separator string). -/
def splitOnChar (sep : Char) : List Char → List (List Char)
  | [] => [[]]
  | c :: cs =>
    match splitOnChar sep cs with
    | [] => if c = sep then [[], []] else [[c]]
    | g :: gs => if c = sep then [] :: g :: gs else (c :: g) :: gs

/-- Index of the last occurrence of `c` (JS `lastIndexOf`, `none` for -1). -/
def lastIndexOf (c : Char) : List Char → Option Nat
  | [] => none
  | x :: xs =>
    match lastIndexOf c xs with
    | some i => some (i + 1)
    | none => if x = c then some 0 else none

/-- Supported agent names (`SUPPORTED_AGENTS`). -/
def SUPPORTED_AGENTS : List String := ["codex", "claude", "gemini"]

/-- Built-in name-to-package table (`DEFAULT_PACKAGES`). -/
def DEFAULT_PACKAGES (name : String) : Option String :=
  if name = "codex" then some "@openai/codex"
  else if name = "claude" then some "@anthropic-ai/claude-code"
  else if name = "gemini" then some "@google/gemini-cli"
  else none

/-- Errors thrown by the resolution engine. -/
inductive AgentError where
  | noAgentSpecified
  | unsupportedAgent (name : String)
  | noPackageConfigured (name : String)
  deriving DecidableEq

/-- normalizeAgentName: `(name || '').trim().toLowerCase()`. -/
def normalizeAgentName (name : JStr) : String := jsToLower (jsTrim (name.getD ""))

/-- assertSupportedAgent, with the thrown error made explicit. -/
def assertSupportedAgent (name : String) : Except AgentError Unit :=
  if SUPPORTED_AGENTS.contains name then .ok () else .error (.unsupportedAgent name)

/-- resolvePackageName: first truthy of override, config, state, built-in table. -/
def resolvePackageName (name : String) (packageOverride configPackage statePackage : JStr) :
    Except AgentError String :=
  if strTruthy packageOverride then .ok (packageOverride.getD "")
  else if strTruthy configPackage then .ok (configPackage.getD "")
  else if strTruthy statePackage then .ok (statePackage.getD "")
  else
    match DEFAULT_PACKAGES name with
    | some builtin => .ok builtin
    | none => .error (.noPackageConfigured name)

/-- Result of parseAgentSpec. -/
structure AgentSpec where
  name : String
  version : JStr
  deriving DecidableEq

/-- parseAgentSpec: split `name@version` at the last `@` when it sits after
position 0; a missing or whitespace-only input yields `none`. -/
def parseAgentSpec (input : JStr) : Option AgentSpec :=
  if strTruthy input = false then none
  else
    let trimmed := jsTrim (input.getD "")
    if trimmed = "" then none
    else
      let cs := trimmed.toList
      match lastIndexOf '@' cs with
      | some atIndex =>
        if atIndex > 0 then
          let name := normalizeAgentName (some ⟨cs.take atIndex⟩)
          let version : String := ⟨cs.drop (atIndex + 1)⟩
          if name = "" then none
          else if version = "" then some ⟨name, none⟩
          else some ⟨name, some version⟩
        else
          let name := normalizeAgentName (some trimmed)
          if name = "" then none else some ⟨name, none⟩
      | none =>
        let name := normalizeAgentName (some trimmed)
        if name = "" then none else some ⟨name, none⟩

/-- parseArgsString: split on single spaces, trim every token, drop empties. -/
def parseArgsString (argString : JStr) : List String :=
  if strTruthy argString = false then []
  else
    ((splitOnChar ' ' ((argString.getD "").toList)).map
      (fun part => jsTrim ⟨part⟩)).filter (fun part => part != "")

/-- Per-tool section of the project config, as loadProjectConfig builds it. -/
structure AgentConfigEntry where
  package : JStr
  version : JStr
  args : JStr
  deriving DecidableEq

def emptyAgentConfigEntry : AgentConfigEntry := ⟨none, none, none⟩

/-- Loaded project configuration (the `path` bookkeeping field is omitted). -/
structure ProjectConfig where
  default : JStr
  agents : List (String × AgentConfigEntry)
  deriving DecidableEq

def emptyProjectConfig : ProjectConfig := ⟨none, []⟩

/-- JS object lookup `config.agents[name]`. -/
def lookupEntry (agents : List (String × AgentConfigEntry)) (name : String) :
    Option AgentConfigEntry :=
  (agents.find? (fun p => p.1 == name)).map (fun p => p.2)

/-- The `current` record of the global state file, as resolution reads it. -/
structure CurrentState where
  name : String
  package : JStr
  version : JStr
  args : JStr
  deriving DecidableEq

/-- View of the global state used by resolution. -/
structure GlobalStateView where
  current : Option CurrentState
  deriving DecidableEq

def emptyStateView : GlobalStateView := ⟨none⟩

/-- Fully resolved target. -/
structure Target where
  name : String
  package : String
  version : String
  args : String
  deriving DecidableEq

/-- `state.current` when its normalized name equals the resolved name, else null. -/
def currentForAgent (state : GlobalStateView) (name : String) : Option CurrentState :=
  match state.current with
  | some c => if normalizeAgentName (some c.name) = name then some c else none
  | none => none

/-- resolveTarget: field-by-field first-match-wins resolution of the target. -/
def resolveTarget (agentArg : JStr) (config : ProjectConfig) (state : GlobalStateView)
    (packageOverride argsOverride : JStr) : Except AgentError Target :=
  let parsed := parseAgentSpec agentArg
  let rawName := jsOr (parsed.map AgentSpec.name)
    (jsOr config.default (state.current.map CurrentState.name))
  let name := normalizeAgentName rawName
  if name = "" then .error .noAgentSpecified
  else
    match assertSupportedAgent name with
    | .error e => .error e
    | .ok _ =>
      let fromConfig := (lookupEntry config.agents name).getD emptyAgentConfigEntry
      let cur := currentForAgent state name
      match resolvePackageName name packageOverride fromConfig.package
          (cur.bind CurrentState.package) with
      | .error e => .error e
      | .ok packageName =>
        let version := (jsOr (parsed.bind AgentSpec.version)
          (jsOr fromConfig.version (jsOr (cur.bind CurrentState.version)
            (some "latest")))).getD ""
        let args := (jsOr argsOverride (jsOr fromConfig.args
          (jsOr (cur.bind CurrentState.args) (some "")))).getD ""
        .ok ⟨name, packageName, version, args⟩

/-- sanitizeName: replace each `/` or `\` character with `__`. -/
def sanitizeName (name : String) : String :=
  ⟨name.toList.flatMap (fun c => if c = '/' ∨ c = '\\' then ['_', '_'] else [c])⟩

/-- Base agents directory (`AGENTS_DIR`), with the AVM_HOME location abstracted. -/
def AGENTS_DIR : String := "~/.avm/agents"

/-- installDir: the install path is keyed by sanitized name and version only. -/
def installDir (name version : String) : String :=
  AGENTS_DIR ++ "/" ++ sanitizeName name ++ "/" ++ version

/-- On-disk install metadata (`.meta.json`), with installedAt as an abstract stamp. -/
structure InstallRecord where
  name : String
  package : String
  version : String
  args : String
  installedAt : Nat
  deriving DecidableEq

/-- One install-path directory of the store: whether it exists, and its metadata
file if present and parseable. -/
structure Slot where
  dirExists : Bool
  meta : Option InstallRecord
  deriving DecidableEq

def emptySlot : Slot := ⟨false, none⟩

/-- Filesystem view of the agents directory, keyed by install path. -/
structure Store where
  slots : List (String × Slot)
  deriving DecidableEq

def getSlot (store : Store) (path : String) : Slot :=
  ((store.slots.find? (fun p => p.1 == path)).map (fun p => p.2)).getD emptySlot

def setSlot (store : Store) (path : String) (slot : Slot) : Store :=
  ⟨(path, slot) :: store.slots.filter (fun p => p.1 != path)⟩

/-- Result of ensureInstalled together with the effects it performed. -/
structure EnsureResult where
  store : Store
  installPath : String
  meta : InstallRecord
  didRemove : Bool
  didInstall : Bool
  wroteMeta : Bool
  installedSpec : Option String
  deriving DecidableEq

/-- ensureInstalled (src/src/install.js). The external npm install is modelled as
succeeding and creating the directory; `now` abstracts the installedAt stamp.
`didRemove` records the recursive directory removal, `didInstall` the external
installer invocation (with `installedSpec` its package@version argument), and
`wroteMeta` whether the metadata file was (re)written. -/
def ensureInstalled (target : Target) (now : Nat) (store : Store) : EnsureResult :=
  let installPath := installDir target.name target.version
  let slot := getSlot store installPath
  let hasInstall := slot.dirExists
  let existingMeta : Option InstallRecord := if hasInstall then slot.meta else none
  match existingMeta with
  | none =>
    let meta : InstallRecord :=
      ⟨target.name, target.package, target.version, target.args, now⟩
    ⟨setSlot store installPath ⟨true, some meta⟩, installPath, meta,
      hasInstall, true, true, some (target.package ++ "@" ++ target.version)⟩
  | some m =>
    if m.package ≠ target.package ∨ m.version ≠ target.version then
      let meta : InstallRecord :=
        ⟨target.name, target.package, target.version, target.args, now⟩
      ⟨setSlot store installPath ⟨true, some meta⟩, installPath, meta,
        hasInstall, true, true, some (target.package ++ "@" ++ target.version)⟩
    else
      let mergedMeta : InstallRecord :=
        { m with name := target.name, package := target.package,
                 version := target.version,
                 args := jsOrS target.args (jsOrS m.args "") }
      if mergedMeta.name ≠ m.name ∨ mergedMeta.package ≠ m.package ∨
          mergedMeta.version ≠ m.version ∨ mergedMeta.args ≠ m.args then
        ⟨setSlot store installPath ⟨true, some mergedMeta⟩, installPath, mergedMeta,
          false, false, true, none⟩
      else ⟨store, installPath, mergedMeta, false, false, false, none⟩

/-- Values stored at the top level of the global state JSON object. -/
inductive StateVal where
  | str (s : String)
  | tgt (t : Target)
  | obj (fields : List (String × String))
  deriving DecidableEq

/-- The global state file content as a JS object: ordered key-value pairs. -/
abbrev StateObj := List (String × StateVal)

/-- JS property lookup on a state object. -/
def objGet (o : StateObj) (k : String) : Option StateVal :=
  (o.find? (fun p => p.1 == k)).map (fun p => p.2)

/-- JS object spread `{...a, ...b}`, at property-lookup granularity: keys of `b`
win over keys of `a`. -/
def spread (a b : StateObj) : StateObj :=
  a.filter (fun p => (b.find? (fun q => q.1 == p.1)).isNone) ++ b

/-- Outcome of reading one JSON file: absent, present but unparseable, or parsed. -/
inductive FileRead (α : Type) where
  | missing
  | corrupt
  | content (a : α)

/-- Errors surfaced by the JSON persistence helpers. -/
inductive JsonError where
  | parseError
  deriving DecidableEq

/-- readJson: a missing file (ENOENT) yields the fallback; any other error —
in particular a JSON parse failure — is rethrown. -/
def readJsonF {α : Type} (file : FileRead α) (fallback : Option α) :
    Except JsonError (Option α) :=
  match file with
  | .missing => .ok fallback
  | .corrupt => .error .parseError
  | .content a => .ok (some a)

/-- readState: `(await readJson(STATE_FILE, {})) || {}`. -/
def readState (file : FileRead StateObj) : Except JsonError StateObj :=
  match readJsonF file (some []) with
  | .error e => .error e
  | .ok v => .ok (v.getD [])

/-- The object writeState persists: previous state, overlaid with the patch,
then stamped with updatedAt. -/
def writeStateObj (previous patch : StateObj) (now : String) : StateObj :=
  spread (spread previous patch) [("updatedAt", .str now)]

/-- writeState: read existing state, shallow-merge the patch on top, stamp
updatedAt, and write back the whole object (returned here). -/
def writeState (file : FileRead StateObj) (patch : StateObj) (now : String) :
    Except JsonError StateObj :=
  match readJsonF file (some []) with
  | .error e => .error e
  | .ok v => .ok (writeStateObj (v.getD []) patch now)

/-- loadProjectConfig (src/src/commands.js): a missing config file yields the
empty config, a file that fails to parse is a fatal error; the successful
parse into the structured ProjectConfig is abstracted as already performed. -/
def loadProjectConfig (file : FileRead ProjectConfig) : Except JsonError ProjectConfig :=
  match file with
  | .missing => .ok emptyProjectConfig
  | .corrupt => .error .parseError
  | .content c => .ok c

theorem getSlot_setSlot (store : Store) (path : String) (slot : Slot) :
    getSlot (setSlot store path slot) path = slot := by
  simp [getSlot, setSlot]

theorem jsOrS_empty_right (t : String) : jsOrS t "" = t := by
  by_cases h : t = "" <;> simp [jsOrS, h]

theorem jsOrS_absorb (t x : String) : jsOrS t (jsOrS t x) = jsOrS t x := by
  by_cases h : t = "" <;> simp [jsOrS, h]

theorem jsOrS_self (t : String) : jsOrS t t = t := by
  by_cases h : t = "" <;> simp [jsOrS, h]

/-- After any ensureInstalled call, the slot at the computed install path holds
a metadata record matching the target on name, package and version, and the
returned args field reabsorbs under the cache-hit merge. -/
theorem ensureInstalled_post (target : Target) (now : Nat) (store : Store) :
    (ensureInstalled target now store).meta.name = target.name ∧
    (ensureInstalled target now store).meta.package = target.package ∧
    (ensureInstalled target now store).meta.version = target.version ∧
    (ensureInstalled target now store).installPath = installDir target.name target.version ∧
    getSlot (ensureInstalled target now store).store (installDir target.name target.version) =
      ⟨true, some (ensureInstalled target now store).meta⟩ ∧
    jsOrS target.args (jsOrS (ensureInstalled target now store).meta.args "") =
      (ensureInstalled target now store).meta.args := by
  rcases hs : getSlot store (installDir target.name target.version) with ⟨d, mo⟩
  rcases mo with _ | m
  · cases d <;>
      simp [ensureInstalled, hs, getSlot_setSlot, jsOrS_empty_right, jsOrS_absorb,
        jsOrS_self]
  · cases d
    · simp [ensureInstalled, hs, getSlot_setSlot, jsOrS_empty_right, jsOrS_absorb,
        jsOrS_self]
    · obtain ⟨mn, mp, mv, ma, mi⟩ := m
      simp only [ensureInstalled, hs, jsOrS_empty_right, ite_true, ne_eq]
      by_cases h1 : ¬mp = target.package ∨ ¬mv = target.version
      · simp [h1, getSlot_setSlot, jsOrS_empty_right, jsOrS_absorb, jsOrS_self]
      · by_cases h2 : ¬target.name = mn ∨ ¬target.package = mp ∨
            ¬target.version = mv ∨ ¬jsOrS target.args ma = ma
        · simp [h1, h2, getSlot_setSlot, jsOrS_empty_right, jsOrS_absorb, jsOrS_self]
        · simp only [if_neg h1, if_neg h2]
          push_neg at h2
          obtain ⟨e1, e2, e3, e4⟩ := h2
          subst e1; subst e2; subst e3
          simp [hs, e4, jsOrS_empty_right, jsOrS_absorb]

theorem jsOrS_ne_iff (t x : String) : ¬jsOrS t x = x ↔ (t ≠ "" ∧ t ≠ x) := by
  by_cases h : t = "" <;> simp [jsOrS, h]

/-- C3: ensureInstalled is idempotent: an immediate second call with an
identical target takes the cache-hit path (no reinstall, no directory removal,
no metadata write) and returns the same install path as the first call, so the
external installation runs at most once across the two calls. -/
theorem ensureInstalled_idempotent (target : Target) (n1 n2 : Nat) (store : Store) :
    (ensureInstalled target n2 (ensureInstalled target n1 store).store).didInstall = false ∧
    (ensureInstalled target n2 (ensureInstalled target n1 store).store).didRemove = false ∧
    (ensureInstalled target n2 (ensureInstalled target n1 store).store).wroteMeta = false ∧
    (ensureInstalled target n2 (ensureInstalled target n1 store).store).installPath =
      (ensureInstalled target n1 store).installPath := by
  obtain ⟨hn, hp, hv, hpath, hslot, hargs⟩ := ensureInstalled_post target n1 store
  rw [jsOrS_empty_right] at hargs
  set r1 := ensureInstalled target n1 store with hr1
  simp only [ensureInstalled, hslot, ite_true, ne_eq, jsOrS_empty_right]
  rw [if_neg (by simp [hp, hv]), if_neg (by simp [hn, hp, hv, hargs])]
  simp [hpath]

/-- C1: ensureInstalled treats the (name, version) slot as a cache miss exactly
when no metadata record exists at the computed install path or the existing
record differs from the target in package or version; on a miss a pre-existing
directory is removed before the external installer runs with the
package@version specifier, and a fresh InstallRecord is written. The
codex / codex-fork same-version drift scenario reinstalls on the second call
and is a cache hit on the third. -/
theorem ensureInstalled_cache_miss_correct :
    (∀ (target : Target) (now : Nat) (store : Store),
      let path := installDir target.name target.version
      let slot := getSlot store path
      let recordAt : Option InstallRecord := if slot.dirExists then slot.meta else none
      ((ensureInstalled target now store).didInstall = true ↔
        (recordAt = none ∨ ∃ m, recordAt = some m ∧
          (m.package ≠ target.package ∨ m.version ≠ target.version))) ∧
      ((ensureInstalled target now store).didInstall = true →
        (ensureInstalled target now store).didRemove = slot.dirExists ∧
        (ensureInstalled target now store).installedSpec =
          some (target.package ++ "@" ++ target.version) ∧
        (ensureInstalled target now store).meta =
          ⟨target.name, target.package, target.version, target.args, now⟩ ∧
        getSlot (ensureInstalled target now store).store path =
          ⟨true, some (ensureInstalled target now store).meta⟩)) ∧
    ((ensureInstalled ⟨"codex", "@openai/codex", "0.1.0", ""⟩ 0 ⟨[]⟩).didInstall = true ∧
     (ensureInstalled ⟨"codex", "@other/codex-fork", "0.1.0", ""⟩ 1
        (ensureInstalled ⟨"codex", "@openai/codex", "0.1.0", ""⟩ 0 ⟨[]⟩).store).didInstall =
          true ∧
     (ensureInstalled ⟨"codex", "@other/codex-fork", "0.1.0", ""⟩ 1
        (ensureInstalled ⟨"codex", "@openai/codex", "0.1.0", ""⟩ 0 ⟨[]⟩).store).didRemove =
          true ∧
     (ensureInstalled ⟨"codex", "@other/codex-fork", "0.1.0", ""⟩ 2
        (ensureInstalled ⟨"codex", "@other/codex-fork", "0.1.0", ""⟩ 1
          (ensureInstalled ⟨"codex", "@openai/codex", "0.1.0", ""⟩ 0 ⟨[]⟩).store).store).didInstall =
          false ∧
     (ensureInstalled ⟨"codex", "@other/codex-fork", "0.1.0", ""⟩ 2
        (ensureInstalled ⟨"codex", "@other/codex-fork", "0.1.0", ""⟩ 1
          (ensureInstalled ⟨"codex", "@openai/codex", "0.1.0", ""⟩ 0 ⟨[]⟩).store).store).didRemove =
          false) := by
  refine ⟨fun target now store => ?_, by decide⟩
  rcases hs : getSlot store (installDir target.name target.version) with ⟨d, mo⟩
  rcases mo with _ | m
  · cases d <;> simp [ensureInstalled, hs, getSlot_setSlot]
  · cases d
    · simp [ensureInstalled, hs, getSlot_setSlot]
    · obtain ⟨mn, mp, mv, ma, mi⟩ := m
      simp only [ensureInstalled, hs, jsOrS_empty_right, ite_true, ne_eq]
      by_cases h1 : ¬mp = target.package ∨ ¬mv = target.version
      · simp [h1, getSlot_setSlot]
      · rw [if_neg h1]
        push_neg at h1
        by_cases h2 : ¬target.name = mn ∨ ¬target.package = mp ∨
            ¬target.version = mv ∨ ¬jsOrS target.args ma = ma
        · rw [if_pos h2]
          simp [h1]
        · rw [if_neg h2]
          simp [h1]

/-- C5: on a cache hit (existing record matching the target's package and
version) ensureInstalled neither reinstalls nor removes the directory; it
persists a merged record — whose args are the target's when non-empty and the
stored ones otherwise — exactly when the stored name differs from the target's
or the target carries non-empty args differing from the stored ones, and
leaves the on-disk record untouched otherwise. -/
theorem ensureInstalled_cache_hit_frame (target : Target) (now : Nat) (store : Store)
    (m : InstallRecord)
    (hslot : getSlot store (installDir target.name target.version) = ⟨true, some m⟩)
    (hp : m.package = target.package) (hv : m.version = target.version) :
    (ensureInstalled target now store).didInstall = false ∧
    (ensureInstalled target now store).didRemove = false ∧
    (ensureInstalled target now store).installedSpec = none ∧
    (ensureInstalled target now store).meta =
      ⟨target.name, target.package, target.version, jsOrS target.args m.args,
        m.installedAt⟩ ∧
    ((ensureInstalled target now store).wroteMeta = true ↔
      (target.name ≠ m.name ∨ (target.args ≠ "" ∧ target.args ≠ m.args))) ∧
    ((ensureInstalled target now store).wroteMeta = false →
      (ensureInstalled target now store).store = store) ∧
    ((ensureInstalled target now store).wroteMeta = true →
      getSlot (ensureInstalled target now store).store
          (installDir target.name target.version) =
        ⟨true, some (ensureInstalled target now store).meta⟩) := by
  obtain ⟨mn, mp, mv, ma, mi⟩ := m
  simp only at hp hv
  simp only [ensureInstalled, hslot, ite_true, ne_eq, jsOrS_empty_right]
  rw [if_neg (by simp [hp, hv])]
  by_cases h2 : ¬target.name = mn ∨ ¬target.package = mp ∨
      ¬target.version = mv ∨ ¬jsOrS target.args ma = ma
  · rw [if_pos h2]
    refine ⟨rfl, rfl, rfl, rfl, ⟨fun _ => ?_, fun _ => rfl⟩,
      fun h => by simp at h,
      fun _ => getSlot_setSlot store (installDir target.name target.version) _⟩
    rcases h2 with h | h | h | h
    · exact Or.inl h
    · exact absurd hp.symm h
    · exact absurd hv.symm h
    · exact Or.inr ((jsOrS_ne_iff target.args ma).mp h)
  · rw [if_neg h2]
    push_neg at h2
    obtain ⟨e1, e2, e3, e4⟩ := h2
    refine ⟨rfl, rfl, rfl, rfl, ⟨fun h => by simp at h, fun hr => ?_⟩,
      fun _ => rfl, fun h => by simp at h⟩
    rcases hr with h | h
    · exact absurd e1 h
    · exact absurd e4 ((jsOrS_ne_iff target.args ma).mpr h)

/-- First-some choice on optional values (JS property override order). -/
def orO (a b : Option StateVal) : Option StateVal :=
  match a with
  | some v => some v
  | none => b

theorem orO_none_right (x : Option StateVal) : orO x none = x := by
  cases x <;> rfl

theorem objGet_cons (p : String × StateVal) (rest : StateObj) (k : String) :
    objGet (p :: rest) k = if p.1 = k then some p.2 else objGet rest k := by
  by_cases h : p.1 = k
  · simp [objGet, List.find?, h]
  · have hb : (p.1 == k) = false := by simp [h]
    simp [objGet, List.find?, hb, h]

theorem objGet_spread (a b : StateObj) (k : String) :
    objGet (spread a b) k = orO (objGet b k) (objGet a k) := by
  induction a with
  | nil => simp [spread, orO_none_right, objGet]
  | cons p rest ih =>
    simp only [spread] at ih ⊢
    rw [List.filter_cons]
    by_cases hpb : (List.find? (fun q => q.1 == p.1) b).isNone = true
    · rw [if_pos hpb, List.cons_append, objGet_cons]
      by_cases hk : p.1 = k
      · subst hk
        have hb : objGet b p.1 = none := by
          rcases hfb : List.find? (fun q => q.1 == p.1) b with _ | q
          · simp [objGet, hfb]
          · simp [hfb] at hpb
        rw [if_pos rfl, hb, objGet_cons, if_pos rfl]
        rfl
      · rw [if_neg hk, ih, objGet_cons, if_neg hk]
    · rw [if_neg hpb, ih]
      by_cases hk : p.1 = k
      · subst hk
        have hb : ∃ v, objGet b p.1 = some v := by
          rcases hfb : List.find? (fun q => q.1 == p.1) b with _ | q
          · simp [hfb] at hpb
          · exact ⟨q.2, by simp [objGet, hfb]⟩
        rcases hb with ⟨v, hv⟩
        rw [hv, objGet_cons, if_pos rfl]
        rfl
      · rw [objGet_cons, if_neg hk]

/-- C6: every global-state write is an additive shallow merge: writeState reads
the existing object, overlays the patch's top-level keys, stamps updatedAt and
writes the whole object back, so keys absent from the patch are preserved; in
particular writing current then self leaves both present. -/
theorem writeState_additive_merge :
    (∀ (prev patch : StateObj) (now : String),
      writeState (.content prev) patch now = .ok (writeStateObj prev patch now)) ∧
    (∀ (patch : StateObj) (now : String),
      writeState .missing patch now = .ok (writeStateObj [] patch now)) ∧
    (∀ (prev patch : StateObj) (now k : String),
      objGet (writeStateObj prev patch now) k =
        if k = "updatedAt" then some (.str now)
        else orO (objGet patch k) (objGet prev k)) ∧
    (∀ (X Y : StateVal) (t1 t2 : String),
      objGet (writeStateObj (writeStateObj [] [("current", X)] t1)
          [("self", Y)] t2) "current" = some X ∧
      objGet (writeStateObj (writeStateObj [] [("current", X)] t1)
          [("self", Y)] t2) "self" = some Y) := by
  have hmain : ∀ (prev patch : StateObj) (now k : String),
      objGet (writeStateObj prev patch now) k =
        if k = "updatedAt" then some (.str now)
        else orO (objGet patch k) (objGet prev k) := by
    intro prev patch now k
    rw [writeStateObj, objGet_spread, objGet_spread]
    by_cases hk : k = "updatedAt"
    · subst hk
      rw [if_pos rfl, objGet_cons]
      simp [orO]
    · rw [if_neg hk, objGet_cons]
      have : ¬("updatedAt" : String) = k := fun h => hk h.symm
      rw [if_neg this]
      rfl
  refine ⟨fun prev patch now => rfl, fun patch now => rfl, hmain, fun X Y t1 t2 => ?_⟩
  constructor
  · rw [hmain, if_neg (by decide), hmain, if_neg (by decide)]
    simp [objGet, List.find?, orO]
  · rw [hmain, if_neg (by decide)]
    simp [objGet, List.find?, orO]

/-- C4 counterexample: a corrupt (unparseable) global state file is not read
back as the empty object; readState propagates the JSON parse error. -/
theorem readState_corrupt_counterexample :
    readState FileRead.corrupt = Except.error JsonError.parseError ∧
    readState FileRead.corrupt ≠ Except.ok ([] : StateObj) := by
  refine ⟨rfl, fun h => ?_⟩
  simp [readState, readJsonF] at h

/-- C4 (amended): a missing global state file reads as the empty object, but a
corrupt one is a fatal JSON parse error, exactly like a parse error in the
project configuration file; a missing project configuration file yields the
empty config. -/
theorem readState_loadProjectConfig_errors :
    readState FileRead.missing = Except.ok ([] : StateObj) ∧
    readState FileRead.corrupt = Except.error JsonError.parseError ∧
    loadProjectConfig FileRead.missing = Except.ok emptyProjectConfig ∧
    loadProjectConfig FileRead.corrupt = Except.error JsonError.parseError ∧
    (∀ c : ProjectConfig, loadProjectConfig (FileRead.content c) = Except.ok c) :=
  ⟨rfl, rfl, rfl, rfl, fun _ => rfl⟩

/-- C8: parseArgsString splits its input on single spaces, trims every token
and drops empty tokens; a null, missing or empty string yields no tokens, and
"resume --flag  extra" (double space) yields exactly three tokens. -/
theorem parseArgsString_tokenization :
    parseArgsString (some "resume --flag  extra") = ["resume", "--flag", "extra"] ∧
    parseArgsString none = [] ∧
    parseArgsString (some "") = [] ∧
    (∀ s : String, s ≠ "" →
      parseArgsString (some s) =
        ((splitOnChar ' ' s.toList).map (fun part => jsTrim ⟨part⟩)).filter
          (fun part => part != "")) ∧
    (∀ (s : JStr) (tok : String), tok ∈ parseArgsString s → tok ≠ "") := by
  refine ⟨by decide, rfl, rfl, fun s hs => ?_, fun s tok htok => ?_⟩
  · simp [parseArgsString, strTruthy, hs]
  · rcases s with _ | s
    · simp [parseArgsString, strTruthy] at htok
    · by_cases hs : s = ""
      · subst hs
        simp [parseArgsString, strTruthy] at htok
      · simp only [parseArgsString, strTruthy] at htok
        rw [if_neg (by simp [hs])] at htok
        have := List.of_mem_filter htok
        simpa using this

/-- C10: an explicit override equal to the empty string is falsy, so it takes
no precedence: resolution with an empty-string package or args override is
identical to resolution with no override, and the resolved field falls through
to the configured value. -/
theorem resolveTarget_empty_override :
    (∀ (agentArg : JStr) (config : ProjectConfig) (state : GlobalStateView) (ao : JStr),
      resolveTarget agentArg config state (some "") ao =
        resolveTarget agentArg config state none ao) ∧
    (∀ (agentArg : JStr) (config : ProjectConfig) (state : GlobalStateView) (po : JStr),
      resolveTarget agentArg config state po (some "") =
        resolveTarget agentArg config state po none) ∧
    resolveTarget (some "codex")
        ⟨none, [("codex", ⟨none, none, some "resume"⟩)]⟩ emptyStateView none (some "") =
      .ok ⟨"codex", "@openai/codex", "latest", "resume"⟩ ∧
    resolveTarget (some "codex")
        ⟨none, [("codex", ⟨some "@cfg/codex", none, none⟩)]⟩ emptyStateView (some "") none =
      .ok ⟨"codex", "@cfg/codex", "latest", ""⟩ := by
  have hpkg : ∀ (name : String) (cp sp : JStr),
      resolvePackageName name (some "") cp sp = resolvePackageName name none cp sp := by
    intro name cp sp
    simp [resolvePackageName, strTruthy]
  have hjs : ∀ b : JStr, jsOr (some "") b = jsOr none b := by
    intro b
    simp [jsOr, strTruthy]
  refine ⟨fun agentArg config state ao => ?_, fun agentArg config state po => ?_, rfl, rfl⟩
  · simp only [resolveTarget, hpkg]
  · simp only [resolveTarget, hjs]

theorem resolvePackageName_ok (name : String) (po cp sp : JStr) (r : String)
    (h : resolvePackageName name po cp sp = .ok r) :
    r = (jsOr po (jsOr cp (jsOr sp (DEFAULT_PACKAGES name)))).getD "" := by
  simp only [resolvePackageName] at h
  simp only [jsOr]
  split_ifs at h ⊢ <;> try simp_all
  rcases hd : DEFAULT_PACKAGES name with _ | b <;> rw [hd] at h <;> simp_all

/-- On a successful resolution, every field of the returned target equals the
first truthy entry of its precedence chain. -/
theorem resolveTarget_ok_fields (agentArg : JStr) (config : ProjectConfig)
    (state : GlobalStateView) (po ao : JStr) (t : Target)
    (h : resolveTarget agentArg config state po ao = .ok t) :
    t.name = normalizeAgentName (jsOr ((parseAgentSpec agentArg).map AgentSpec.name)
      (jsOr config.default (state.current.map CurrentState.name))) ∧
    t.package = (jsOr po (jsOr ((lookupEntry config.agents t.name).getD
        emptyAgentConfigEntry).package
      (jsOr ((currentForAgent state t.name).bind CurrentState.package)
        (DEFAULT_PACKAGES t.name)))).getD "" ∧
    t.version = (jsOr ((parseAgentSpec agentArg).bind AgentSpec.version)
      (jsOr ((lookupEntry config.agents t.name).getD emptyAgentConfigEntry).version
        (jsOr ((currentForAgent state t.name).bind CurrentState.version)
          (some "latest")))).getD "" ∧
    t.args = (jsOr ao (jsOr ((lookupEntry config.agents t.name).getD
        emptyAgentConfigEntry).args
      (jsOr ((currentForAgent state t.name).bind CurrentState.args)
        (some "")))).getD "" := by
  simp only [resolveTarget] at h
  split at h
  · exact absurd h (by simp)
  · split at h
    · exact absurd h (by simp)
    · split at h
      · exact absurd h (by simp)
      · rename_i hname hsup pkg hpkg
        rw [Except.ok.injEq] at h
        subst h
        refine ⟨rfl, ?_, rfl, rfl⟩
        exact resolvePackageName_ok _ _ _ _ _ hpkg

/-- Global state whose normalized current name differs from the name the
resolution would compute is interchangeable with an empty state. -/
theorem resolveTarget_state_no_leak (agentArg : JStr) (config : ProjectConfig)
    (c : CurrentState) (po ao : JStr)
    (hne : normalizeAgentName (some c.name) ≠
      normalizeAgentName (jsOr ((parseAgentSpec agentArg).map AgentSpec.name)
        (jsOr config.default (some c.name)))) :
    resolveTarget agentArg config ⟨some c⟩ po ao =
      resolveTarget agentArg config ⟨none⟩ po ao := by
  by_cases h1 : strTruthy ((parseAgentSpec agentArg).map AgentSpec.name)
  · simp only [jsOr, h1, if_true] at hne
    simp only [resolveTarget, jsOr, h1, if_true, currentForAgent]
    rw [if_neg hne]
  · by_cases h2 : strTruthy config.default
    · simp only [jsOr, h1, h2, if_true, if_false, Bool.false_eq_true] at hne
      simp only [resolveTarget, jsOr, h1, h2, if_true, if_false, Bool.false_eq_true,
        currentForAgent]
      rw [if_neg hne]
    · exfalso
      apply hne
      simp [jsOr, h1, h2]

/-- C2: resolveTarget resolves each of name, package, version and args by
strict first-match-wins precedence over its own chain (jsOr picks the first
truthy source, so a higher-precedence value wins regardless of lower ones),
and the state's last-used package/version/args are consulted only through
currentForAgent, so state recorded for a different tool never influences
resolution. -/
theorem resolveTarget_precedence :
    (∀ (agentArg : JStr) (config : ProjectConfig) (state : GlobalStateView)
        (po ao : JStr) (t : Target),
      resolveTarget agentArg config state po ao = .ok t →
      t.name = normalizeAgentName (jsOr ((parseAgentSpec agentArg).map AgentSpec.name)
        (jsOr config.default (state.current.map CurrentState.name))) ∧
      t.package = (jsOr po (jsOr ((lookupEntry config.agents t.name).getD
          emptyAgentConfigEntry).package
        (jsOr ((currentForAgent state t.name).bind CurrentState.package)
          (DEFAULT_PACKAGES t.name)))).getD "" ∧
      t.version = (jsOr ((parseAgentSpec agentArg).bind AgentSpec.version)
        (jsOr ((lookupEntry config.agents t.name).getD emptyAgentConfigEntry).version
          (jsOr ((currentForAgent state t.name).bind CurrentState.version)
            (some "latest")))).getD "" ∧
      t.args = (jsOr ao (jsOr ((lookupEntry config.agents t.name).getD
          emptyAgentConfigEntry).args
        (jsOr ((currentForAgent state t.name).bind CurrentState.args)
          (some "")))).getD "") ∧
    (∀ (a b : JStr), strTruthy a = true → jsOr a b = a) ∧
    (∀ (a b : JStr), strTruthy a = false → jsOr a b = b) ∧
    (∀ (agentArg : JStr) (config : ProjectConfig) (c : CurrentState) (po ao : JStr)
        (t : Target),
      resolveTarget agentArg config ⟨some c⟩ po ao = .ok t →
      normalizeAgentName (some c.name) ≠ t.name →
      resolveTarget agentArg config ⟨none⟩ po ao = .ok t) := by
  refine ⟨resolveTarget_ok_fields, fun a b h => by simp [jsOr, h],
    fun a b h => by simp [jsOr, h], fun agentArg config c po ao t h hne => ?_⟩
  have key : t.name = normalizeAgentName (jsOr ((parseAgentSpec agentArg).map AgentSpec.name)
      (jsOr config.default (some c.name))) :=
    (resolveTarget_ok_fields agentArg config ⟨some c⟩ po ao t h).1
  rw [← resolveTarget_state_no_leak agentArg config c po ao
    (fun heq => hne (heq.trans key.symm))]
  exact h

/-- Witness for resolveTarget_precedence: a fully populated input where the
explicit overrides win every chain, and a gemini state record that does not
leak into resolving codex. -/
theorem resolveTarget_precedence_witness :
    ((⟨"codex", "@ovr/codex", "2.0.0", "ovrargs"⟩ : Target).package =
      (jsOr (some "@ovr/codex") (jsOr (some "@cfg/codex")
        (jsOr (some "@st/codex") (DEFAULT_PACKAGES "codex")))).getD "") ∧
    ((⟨"codex", "@ovr/codex", "2.0.0", "ovrargs"⟩ : Target).args =
      (jsOr (some "ovrargs") (jsOr (some "cfgargs")
        (jsOr (some "stargs") (some "")))).getD "") ∧
    resolveTarget (some "codex") emptyProjectConfig (⟨none⟩ : GlobalStateView)
        none none = .ok ⟨"codex", "@openai/codex", "latest", ""⟩ := by
  have h1 := resolveTarget_precedence.1 (some "codex@2.0.0")
    ⟨none, [("codex", ⟨some "@cfg/codex", some "1.1.1", some "cfgargs"⟩)]⟩
    ⟨some ⟨"codex", some "@st/codex", some "0.9.9", some "stargs"⟩⟩
    (some "@ovr/codex") (some "ovrargs")
    ⟨"codex", "@ovr/codex", "2.0.0", "ovrargs"⟩ rfl
  have h2 := resolveTarget_precedence.2.2.2 (some "codex") emptyProjectConfig
    ⟨"gemini", some "@g/gem", some "9.9.9", some "gemargs"⟩ none none
    ⟨"codex", "@openai/codex", "latest", ""⟩ rfl (by decide)
  exact ⟨h1.2.1, h1.2.2.2, h2⟩

/-- C7: resolution normalizes the requested name by trimming surrounding
whitespace and lowercasing before validating it against the fixed supported
set; a non-empty normalized name outside the set fails with the
unsupported-agent error, an absent name fails with no-agent-specified, and
" CoDeX " resolves to codex. -/
theorem resolveTarget_name_validation :
    normalizeAgentName (some " CoDeX ") = "codex" ∧
    resolveTarget (some " CoDeX ") emptyProjectConfig emptyStateView none none =
      .ok ⟨"codex", "@openai/codex", "latest", ""⟩ ∧
    (∀ (agentArg : JStr) (config : ProjectConfig) (state : GlobalStateView) (po ao : JStr),
      (normalizeAgentName (jsOr ((parseAgentSpec agentArg).map AgentSpec.name)
          (jsOr config.default (state.current.map CurrentState.name))) = "" →
        resolveTarget agentArg config state po ao = .error .noAgentSpecified) ∧
      (∀ n : String,
        normalizeAgentName (jsOr ((parseAgentSpec agentArg).map AgentSpec.name)
          (jsOr config.default (state.current.map CurrentState.name))) = n →
        n ≠ "" →
        SUPPORTED_AGENTS.contains n = false →
        resolveTarget agentArg config state po ao = .error (.unsupportedAgent n))) := by
  refine ⟨by decide, rfl,
    fun agentArg config state po ao => ⟨fun hz => ?_, fun n hn hnz hsup => ?_⟩⟩
  · simp only [resolveTarget]
    rw [if_pos hz]
  · subst hn
    have hmem : normalizeAgentName (jsOr ((parseAgentSpec agentArg).map AgentSpec.name)
        (jsOr config.default (state.current.map CurrentState.name))) ∉ SUPPORTED_AGENTS := by
      simpa using hsup
    simp only [resolveTarget]
    rw [if_neg hnz]
    simp [assertSupportedAgent, hmem]

/-- Witness for resolveTarget_name_validation: no name available at all, and
an unsupported name. -/
theorem resolveTarget_name_validation_witness :
    resolveTarget none emptyProjectConfig emptyStateView none none =
      .error .noAgentSpecified ∧
    resolveTarget (some "unknown") emptyProjectConfig emptyStateView none none =
      .error (.unsupportedAgent "unknown") :=
  ⟨(resolveTarget_name_validation.2.2 none emptyProjectConfig emptyStateView
      none none).1 (by decide),
   (resolveTarget_name_validation.2.2 (some "unknown") emptyProjectConfig emptyStateView
      none none).2 "unknown" (by decide) (by decide) (by decide)⟩

/-- C9: the version component of a cliSpec is the text after the last `@` when
that `@` sits after position 0 (so the leading `@` of a registry-scoped name
does not start a version), and an absent cliSpec version falls back to the
config's per-tool version, then the state's version for that tool, then the
sentinel "latest". -/
theorem version_resolution :
    (∀ (s : String) (i : Nat),
      s ≠ "" →
      jsTrim s ≠ "" →
      lastIndexOf '@' (jsTrim s).toList = some i →
      0 < i →
      normalizeAgentName (some ⟨(jsTrim s).toList.take i⟩) ≠ "" →
      (⟨(jsTrim s).toList.drop (i + 1)⟩ : String) ≠ "" →
      parseAgentSpec (some s) =
        some ⟨normalizeAgentName (some ⟨(jsTrim s).toList.take i⟩),
          some ⟨(jsTrim s).toList.drop (i + 1)⟩⟩) ∧
    parseAgentSpec (some "@scope/name") = some ⟨"@scope/name", none⟩ ∧
    parseAgentSpec (some "codex@1.2.3") = some ⟨"codex", some "1.2.3"⟩ ∧
    (∀ (agentArg : JStr) (config : ProjectConfig) (state : GlobalStateView)
        (po ao : JStr) (t : Target),
      resolveTarget agentArg config state po ao = .ok t →
      t.version = (jsOr ((parseAgentSpec agentArg).bind AgentSpec.version)
        (jsOr ((lookupEntry config.agents t.name).getD emptyAgentConfigEntry).version
          (jsOr ((currentForAgent state t.name).bind CurrentState.version)
            (some "latest")))).getD "") := by
  refine ⟨fun s i hs htr hlast hi hname hver => ?_, by decide, by decide,
    fun agentArg config state po ao t h =>
      (resolveTarget_ok_fields agentArg config state po ao t h).2.2.1⟩
  simp only [parseAgentSpec, Option.getD_some]
  rw [if_neg (by simp [strTruthy, hs]), if_neg htr, hlast]
  simp only []
  rw [if_pos hi, if_neg hname, if_neg hver]

/-- Witness for version_resolution: a concrete spec with a version after the
last `@`, and a config-supplied version filling in for an absent cliSpec
version. -/
theorem version_resolution_witness :
    parseAgentSpec (some "codex@9.9.9") = some ⟨"codex", some "9.9.9"⟩ ∧
    (⟨"codex", "@openai/codex", "1.2.3", ""⟩ : Target).version =
      (jsOr none (jsOr (some "1.2.3") (jsOr none (some "latest")))).getD "" :=
  ⟨version_resolution.1 "codex@9.9.9" 5 (by decide) (by decide) (by decide)
      (by decide) (by decide) (by decide),
   version_resolution.2.2.2 (some "codex")
      ⟨none, [("codex", ⟨none, some "1.2.3", none⟩)]⟩ emptyStateView none none
      ⟨"codex", "@openai/codex", "1.2.3", ""⟩ rfl⟩

/-- Witness for ensureInstalled_cache_miss_correct: the very first install into
an empty store is a cache miss with no pre-existing directory to remove. -/
theorem ensureInstalled_cache_miss_correct_witness :
    (ensureInstalled ⟨"codex", "@openai/codex", "0.1.0", ""⟩ 0 ⟨[]⟩).didInstall = true ∧
    ((ensureInstalled ⟨"codex", "@openai/codex", "0.1.0", ""⟩ 0 ⟨[]⟩).didRemove =
        (getSlot ⟨[]⟩ (installDir "codex" "0.1.0")).dirExists ∧
      (ensureInstalled ⟨"codex", "@openai/codex", "0.1.0", ""⟩ 0 ⟨[]⟩).installedSpec =
        some ("@openai/codex" ++ "@" ++ "0.1.0") ∧
      (ensureInstalled ⟨"codex", "@openai/codex", "0.1.0", ""⟩ 0 ⟨[]⟩).meta =
        ⟨"codex", "@openai/codex", "0.1.0", "", 0⟩ ∧
      getSlot (ensureInstalled ⟨"codex", "@openai/codex", "0.1.0", ""⟩ 0 ⟨[]⟩).store
          (installDir "codex" "0.1.0") =
        ⟨true, some (ensureInstalled ⟨"codex", "@openai/codex", "0.1.0", ""⟩ 0 ⟨[]⟩).meta⟩) :=
  ⟨by decide,
   (ensureInstalled_cache_miss_correct.1 ⟨"codex", "@openai/codex", "0.1.0", ""⟩ 0 ⟨[]⟩).2
     (by decide)⟩

/-- Witness for ensureInstalled_cache_hit_frame: a store holding a matching
record with stale empty args, hit with a target carrying new args. -/
theorem ensureInstalled_cache_hit_frame_witness :
    getSlot ⟨[(installDir "codex" "1.0.0",
        ⟨true, some ⟨"codex", "@openai/codex", "1.0.0", "", 5⟩⟩)]⟩
      (installDir "codex" "1.0.0") =
      ⟨true, some ⟨"codex", "@openai/codex", "1.0.0", "", 5⟩⟩ ∧
    (ensureInstalled ⟨"codex", "@openai/codex", "1.0.0", "--resume"⟩ 9
      ⟨[(installDir "codex" "1.0.0",
        ⟨true, some ⟨"codex", "@openai/codex", "1.0.0", "", 5⟩⟩)]⟩).didInstall = false ∧
    (ensureInstalled ⟨"codex", "@openai/codex", "1.0.0", "--resume"⟩ 9
      ⟨[(installDir "codex" "1.0.0",
        ⟨true, some ⟨"codex", "@openai/codex", "1.0.0", "", 5⟩⟩)]⟩).didRemove = false := by
  have h := ensureInstalled_cache_hit_frame
    ⟨"codex", "@openai/codex", "1.0.0", "--resume"⟩ 9
    ⟨[(installDir "codex" "1.0.0",
      ⟨true, some ⟨"codex", "@openai/codex", "1.0.0", "", 5⟩⟩)]⟩
    ⟨"codex", "@openai/codex", "1.0.0", "", 5⟩ (by decide) (by decide) (by decide)
  exact ⟨by decide, h.1, h.2.1⟩

/-- Witness for parseArgsString_tokenization: the general clauses applied at a
concrete non-empty string and a concrete member token. -/
theorem parseArgsString_tokenization_witness :
    parseArgsString (some "a  b") =
      ((splitOnChar ' ' ("a  b" : String).toList).map (fun part => jsTrim ⟨part⟩)).filter
        (fun part => part != "") ∧
    ("a" : String) ≠ "" :=
  ⟨parseArgsString_tokenization.2.2.2.1 "a  b" (by decide),
   parseArgsString_tokenization.2.2.2.2 (some "a  b") "a" (by decide)⟩

end Avm
